import Mathlib

/-!
# EAFITos shell: history manager, command registry, dispatcher and REPL cycle

Shallow embedding of `src/utils/history_manager.c` and `src/core/shell_loop.c`.

* `MAX_HISTORY` comes from `shell.h`, which is not part of the sources at hand;
  it is a parameter of every definition that uses it.
* C strings are Lean `String`s (a C string has no interior NUL); a `char *` that
  may be `NULL` is an `Option String`.
* `int history_count` is an `Int`; it never leaves `0 .. MAX_HISTORY`, so no
  machine overflow is involved.
* `strdup` may fail: each call of `add_to_history` receives a Boolean telling
  whether the allocation succeeds.
-/

namespace EAFITos

/-! ## History manager (`history_manager.c`) -/

/-- The two globals of `history_manager.c`: `char *history[MAX_HISTORY]` and
`int history_count`. A slot holds `none` for `NULL`, `some s` for a pointer to
the string `s`. -/
structure Historial where
  history : List (Option String)
  history_count : Int
  deriving DecidableEq

/-- Array read `a[i]`. Reads outside the array (undefined in C) give `NULL`. -/
def leer (a : List (Option String)) (i : Int) : Option String :=
  if i < 0 then none else a.getD i.toNat none

/-- Array write `a[i] = v`. Writes outside the array (undefined in C) are dropped. -/
def escribir (a : List (Option String)) (i : Int) (v : Option String) :
    List (Option String) :=
  if i < 0 then a else a.set i.toNat v

/-- The result of `strdup(s)`: a fresh copy of `s`, or `NULL` when the allocation fails. -/
def strdup (ok : Bool) (s : String) : Option String :=
  if ok then some s else none

/-- The body of the shifting loop of `add_to_history`: `history[i] = history[i + 1];` -/
def desplazar_paso (h : List (Option String)) (i : Nat) : List (Option String) :=
  h.set i (h.getD (i + 1) none)

/-- The shifting loop of `add_to_history`:
`for (int i = 0; i < MAX_HISTORY - 1; i++) history[i] = history[i + 1];` -/
def desplazar (MAX_HISTORY : Nat) (a : List (Option String)) : List (Option String) :=
  (List.range (MAX_HISTORY - 1)).foldl desplazar_paso a

/-- The state at program start: globals are zero-initialised. -/
def historial_inicial (MAX_HISTORY : Nat) : Historial :=
  ⟨List.replicate MAX_HISTORY none, 0⟩

/-- Embedding of `void add_to_history(const char *cmd)`.
`free(history[0])` releases storage only and has no effect on the contents
model. -/
def add_to_history (MAX_HISTORY : Nat) (ok : Bool) (cmd : Option String)
    (s : Historial) : Historial :=
  match cmd with
  | none => s
  | some c =>
    if c.length = 0 then s
    else if 0 < s.history_count ∧ leer s.history (s.history_count - 1) = some c then s
    else
      let s1 : Historial :=
        if s.history_count = (MAX_HISTORY : Int) then
          ⟨desplazar MAX_HISTORY s.history, s.history_count - 1⟩
        else s
      let s2 : Historial :=
        ⟨escribir s1.history s1.history_count (strdup ok c), s1.history_count⟩
      if leer s2.history s2.history_count = none then s2
      else ⟨s2.history, s2.history_count + 1⟩

/-- A finite sequence of `add_to_history` calls; each call carries its argument
and whether its `strdup` succeeds. -/
def add_secuencia (MAX_HISTORY : Nat) (llamadas : List (Option String × Bool))
    (s : Historial) : Historial :=
  llamadas.foldl (fun t p => add_to_history MAX_HISTORY p.2 p.1 t) s

/-- The stored entries `history[0 .. history_count - 1]`, oldest first. -/
def entradas (s : Historial) : List (Option String) :=
  s.history.take s.history_count.toNat

/-- The most recently stored entry, `history[history_count - 1]`, if any. -/
def ultima (s : Historial) : Option String :=
  if 0 < s.history_count then leer s.history (s.history_count - 1) else none

/-! ## Command registry and dispatcher (`shell_loop.c`) -/

/-- The handlers declared in `commands.h`; a value of this type stands for the
address of the C function of the same name. -/
inductive Comando
  | cmd_listar | cmd_leer | cmd_tiempo | cmd_calc | cmd_ayuda | cmd_salir
  | cmd_historial | cmd_limpiar | cmd_buscar | cmd_estadisticas
  deriving DecidableEq

/-- The table `char *nombres_comandos[]`. -/
def nombres_comandos : List String :=
  ["listar", "leer", "tiempo", "calc", "ayuda", "salir",
   "historial", "limpiar", "buscar", "estadisticas"]

/-- The table `void (*func_comandos[]) (char **)`. -/
def func_comandos : List Comando :=
  [Comando.cmd_listar, Comando.cmd_leer, Comando.cmd_tiempo, Comando.cmd_calc,
   Comando.cmd_ayuda, Comando.cmd_salir,
   Comando.cmd_historial, Comando.cmd_limpiar, Comando.cmd_buscar,
   Comando.cmd_estadisticas]

/-- Embedding of `int num_comandos()`:
`sizeof(nombres_comandos) / sizeof(nombres_comandos[0])`. -/
def num_comandos : Nat := nombres_comandos.length

/-- What the shell core itself does to the outside: it calls a handler through
a function pointer, or it writes text to the console. A call hands the handler
its argument list; the handler can also read the globals `history` and
`history_count` (as `cmd_historial` does), so the event records their value at
the moment of the call. -/
inductive Evento
  | llamada (f : Comando) (args : List String) (hist : Historial)
  | salida (texto : String)
  deriving DecidableEq

/-- The state seen by the REPL: the history globals, the events produced so far
(oldest first), and whether the process has ended. -/
structure Mundo where
  hist : Historial
  traza : List Evento
  terminado : Bool
  deriving DecidableEq

/-- The state at process start. -/
def mundo_inicial (MAX_HISTORY : Nat) : Mundo :=
  ⟨historial_inicial MAX_HISTORY, [], false⟩

/-- The call `printf(...)` of the shell core, with the text already formatted. -/
def printf (texto : String) (m : Mundo) : Mundo :=
  ⟨m.hist, m.traza ++ [Evento.salida texto], m.terminado⟩

/-- The call `func_comandos[i](args)`. The handler bodies are collaborators of
the core: the call is recorded as an event that carries everything the handler
receives, its arguments and the history globals as they are when it is called.
Two facts of the bodies are kept. `cmd_salir` calls `exit(0)` (basic_commands.c),
so the process ends. No handler present in the sources assigns `history` or
`history_count` (`cmd_historial` only reads them), so the history is the same
after the call. -/
def invocar (f : Comando) (args : List String) (m : Mundo) : Mundo :=
  ⟨m.hist, m.traza ++ [Evento.llamada f args m.hist],
    m.terminado || decide (f = Comando.cmd_salir)⟩

/-- The conversion `%d` of `printf` for an `int`. -/
def fmt_d (n : Int) : String := toString n

/-- The conversion `%2d` of `printf`: `%d` padded on the left to width 2. -/
def fmt_2d (n : Int) : String :=
  if (fmt_d n).length < 2 then " " ++ fmt_d n else fmt_d n

/-- Embedding of `void cmd_historial(char **args)` (advanced_commands.c): the
texts of its `printf` calls, in order, as a function of the globals it reads.
`args` is not used by the body. A `NULL` slot passed to `%s` (undefined in C)
is shown as "(null)". -/
def cmd_historial (s : Historial) : List String :=
  if s.history_count = 0 then
    ["\n=== HISTORIAL DE COMANDOS (últimos " ++ fmt_d s.history_count ++ ") ===\n",
     "  El historial está vacío.\n",
     "  Ejecuta algunos comandos para verlos aquí.\n\n"]
  else
    ["\n=== HISTORIAL DE COMANDOS (últimos " ++ fmt_d s.history_count ++ ") ===\n"]
      ++ (List.range s.history_count.toNat).map
          (fun (i : Nat) => "  " ++ fmt_2d ((i : Int) + 1) ++ ": "
            ++ (leer s.history (i : Int)).getD "(null)" ++ "\n")
      ++ ["\n"]

/-- The search loop of `ejecutar`:
`for (int i = 0; i < num_comandos(); i++) if (strcmp(args[0], nombres_comandos[i]) == 0) ...`
gives the first index whose name equals `args[0]`, if any. -/
def buscar_comando (a0 : String) : Option Nat :=
  (List.range num_comandos).find? (fun i => a0 == nombres_comandos.getD i "")

/-- The text of the `printf` at the end of `ejecutar`, with `%s` replaced by the token. -/
def texto_desconocido (a0 : String) : String :=
  "Comando desconocido: " ++ a0 ++ "\nEscribe \x27ayuda\x27 para ver los comandos.\n"

/-- Embedding of `void ejecutar(char **args)`. The NULL-terminated array `args`
is the list of its tokens; `args[0] == NULL` is the empty list. -/
def ejecutar (args : List String) (m : Mundo) : Mundo :=
  match args with
  | [] => m
  | a0 :: _ =>
    match buscar_comando a0 with
    | some i =>
      match func_comandos[i]? with
      | some f => invocar f args m
      | none => m
    | none => printf (texto_desconocido a0) m

/-! ## REPL cycle (`loop_shell`) -/

/-- Step 2 of the loop body:
`if (linea != NULL && strlen(linea) > 0) add_to_history(linea);` -/
def guardar_linea (MAX_HISTORY : Nat) (ok : Bool) (linea : Option String)
    (m : Mundo) : Mundo :=
  match linea with
  | none => m
  | some l =>
    if 0 < l.length then
      ⟨add_to_history MAX_HISTORY ok (some l) m.hist, m.traza, m.terminado⟩
    else m

/-- One iteration of the `while (1)` body of `loop_shell`. `linea` is what
`leer_linea()` returned and `ok` tells whether `strdup` succeeds in this
iteration. `leer_linea` and `parsear_linea` are declared in `shell.h` and are
not among the sources: the line is an input and the tokenizer a parameter.
The two `free` calls release storage only. -/
def ciclo (MAX_HISTORY : Nat) (parsear_linea : Option String → List String)
    (linea : Option String) (ok : Bool) (m : Mundo) : Mundo :=
  ejecutar (parsear_linea linea)
    (guardar_linea MAX_HISTORY ok linea (printf "EAFITos> " m))

/-- The loop `while (1) { ... }` of `loop_shell` run on a finite sequence of
lines; it stops when a handler has ended the process. -/
def loop_shell (MAX_HISTORY : Nat) (parsear_linea : Option String → List String)
    (lineas : List (Option String × Bool)) (m : Mundo) : Mundo :=
  lineas.foldl
    (fun w p => if w.terminado then w else ciclo MAX_HISTORY parsear_linea p.1 p.2 w) m

/-- Splitting of a character sequence at whitespace; `acc` holds the current
token reversed. -/
def tokens : List Char → List Char → List String
  | [], acc => if acc = [] then [] else [String.mk acc.reverse]
  | c :: cs, acc =>
    if c.isWhitespace then
      (if acc = [] then tokens cs [] else String.mk acc.reverse :: tokens cs [])
    else tokens cs (c :: acc)

/-- Modelled from the spec: the tokenizer `parsear_linea` is declared in
`shell.h` and defined outside the sources at hand. The spec describes it as
"`tokenize(line)` → ordered argument list (whitespace-delimited, no
quoting/escaping semantics assumed)". -/
def parsear_linea_blancos (linea : Option String) : List String :=
  match linea with
  | none => []
  | some l => tokens l.data []

/-! ## Auxiliary notions used in the statements -/

/-- Well-formed state: the array has its `MAX_HISTORY` slots and
`0 ≤ history_count ≤ MAX_HISTORY`. -/
def Bien (MAX_HISTORY : Nat) (s : Historial) : Prop :=
  s.history.length = MAX_HISTORY ∧ 0 ≤ s.history_count ∧
    s.history_count ≤ (MAX_HISTORY : Int)

/-- What one call of `add_to_history` does to the list of stored entries
(a list-level reading of the function, proved equal to it in
`entradas_add_to_history`). -/
def registro_paso (MAX_HISTORY : Nat) (ok : Bool) (cmd : Option String)
    (es : List (Option String)) : List (Option String) :=
  match cmd with
  | none => es
  | some c =>
    if c = "" then es
    else if es.getLast? = some (some c) then es
    else (if es.length = MAX_HISTORY then es.tail else es) ++ (if ok then [some c] else [])

/-- The list-level reading of a sequence of calls. -/
def registro_secuencia (MAX_HISTORY : Nat) (llamadas : List (Option String × Bool))
    (es : List (Option String)) : List (Option String) :=
  llamadas.foldl (fun t p => registro_paso MAX_HISTORY p.2 p.1 t) es

/-- Every stored entry is a non-empty string and no entry equals the one
stored right before it. -/
def Limpio (es : List (Option String)) : Prop :=
  (∀ e ∈ es, ∃ x : String, e = some x ∧ x ≠ "") ∧ List.Chain' (fun a b => a ≠ b) es

/-! ## Lemmas

### The shifting loop -/

theorem desplazar_pasos (a : List (Option String)) (k : Nat) (hk : k + 1 ≤ a.length) :
    ((List.range k).foldl desplazar_paso a).length = a.length ∧
    ∀ j, ((List.range k).foldl desplazar_paso a)[j]? =
      if j < k then a[j + 1]? else a[j]? := by
  induction k with
  | zero => simp
  | succ k ih =>
    have ih1 := ih (by omega)
    rw [List.range_succ, List.foldl_append]
    simp only [List.foldl_cons, List.foldl_nil]
    generalize (List.range k).foldl desplazar_paso a = r at ih1 ⊢
    unfold desplazar_paso
    rw [List.length_set]
    refine ⟨ih1.1, fun j => ?_⟩
    rw [List.getElem?_set, ih1.1]
    have hk1 : a[k + 1]? = some (a[k + 1]) := List.getElem?_eq_getElem (by omega)
    by_cases hjk : k = j
    · subst hjk
      have hlt : k < a.length := by omega
      simp only [hlt, if_true, List.getD_eq_getElem?_getD, ih1.2 (k + 1)]
      simp [hk1]
    · rw [if_neg hjk, ih1.2 j]
      by_cases h1 : j < k
      · have h2 : j < k + 1 := by omega
        simp [h1, h2]
      · have h2 : ¬ j < k + 1 := by omega
        simp [h1, h2]

theorem desplazar_length (n : Nat) (a : List (Option String)) (hn : 1 ≤ n)
    (ha : a.length = n) : (desplazar n a).length = n := by
  unfold desplazar
  rw [(desplazar_pasos a (n - 1) (by omega)).1, ha]

theorem desplazar_getElem? (n : Nat) (a : List (Option String)) (hn : 1 ≤ n)
    (ha : a.length = n) (j : Nat) :
    (desplazar n a)[j]? = if j < n - 1 then a[j + 1]? else a[j]? := by
  unfold desplazar
  exact (desplazar_pasos a (n - 1) (by omega)).2 j

theorem take_desplazar (n : Nat) (a : List (Option String)) (hn : 1 ≤ n)
    (ha : a.length = n) : (desplazar n a).take (n - 1) = a.tail := by
  apply List.ext_getElem?
  intro j
  rw [List.getElem?_take, desplazar_getElem? n a hn ha, ← List.drop_one, List.getElem?_drop]
  by_cases h : j < n - 1
  · simp [h, Nat.add_comm]
  · simp only [h, if_false]
    symm
    apply List.getElem?_eq_none
    omega

/-! ### Reading and writing through an `int` index -/

theorem strlen_cero (c : String) : c.length = 0 ↔ c = "" := by
  constructor
  · intro h
    cases c with
    | mk d =>
      have hd : d = [] := List.length_eq_zero.mp h
      subst hd
      rfl
  · intro h
    subst h
    rfl

theorem leer_nat (a : List (Option String)) (c : Nat) :
    leer a (c : Int) = a.getD c none := by
  simp [leer]

theorem leer_pred (a : List (Option String)) (c : Nat) (hc : 0 < c) :
    leer a ((c : Int) - 1) = a.getD (c - 1) none := by
  have h1 : ¬ ((c : Int) - 1 < 0) := by omega
  have h2 : ((c : Int) - 1).toNat = c - 1 := by omega
  simp only [leer, h1, if_false, h2]

theorem escribir_nat (a : List (Option String)) (c : Nat) (v : Option String) :
    escribir a (c : Int) v = a.set c v := by
  simp [escribir]

theorem take_set_igual (a : List (Option String)) (c : Nat) (v : Option String) :
    (a.set c v).take c = a.take c := by
  apply List.ext_getElem?
  intro j
  rw [List.getElem?_take, List.getElem?_take]
  by_cases h : j < c
  · have : c ≠ j := by omega
    simp [h, List.getElem?_set_ne this]
  · simp [h]

theorem take_set_succ (a : List (Option String)) (c : Nat) (v : Option String)
    (hc : c < a.length) : (a.set c v).take (c + 1) = a.take c ++ [v] := by
  rw [List.take_succ, take_set_igual]
  simp [hc]

theorem getD_set_igual (a : List (Option String)) (c : Nat) (v : Option String)
    (hc : c < a.length) : (a.set c v).getD c none = v := by
  simp [hc]

theorem getLast?_take_getD (a : List (Option String)) (c : Nat) (h0 : 0 < c)
    (hc : c ≤ a.length) : (a.take c).getLast? = some (a.getD (c - 1) none) := by
  have hlt : c - 1 < a.length := by omega
  rw [List.getLast?_take, if_neg (by omega), List.getElem?_eq_getElem hlt]
  simp [hlt]

/-! ### One call of `add_to_history` on a well-formed state -/

theorem bien_intro (n : Nat) (h : List (Option String)) (k : Int) (h1 : h.length = n)
    (h2 : 0 ≤ k) (h3 : k ≤ (n : Int)) : Bien n ⟨h, k⟩ :=
  ⟨h1, h2, h3⟩

theorem entradas_length (n : Nat) (s : Historial) (hs : Bien n s) :
    (entradas s).length = s.history_count.toNat := by
  obtain ⟨h1, h2, h3⟩ := hs
  unfold entradas
  rw [List.length_take]
  omega

theorem historial_inicial_bien (n : Nat) : Bien n (historial_inicial n) := by
  simp [Bien, historial_inicial]

theorem entradas_inicial (n : Nat) : entradas (historial_inicial n) = [] := by
  simp [entradas, historial_inicial]

theorem add_to_history_paso (n : Nat) (ok : Bool) (cmd : Option String) (s : Historial)
    (hn : 1 ≤ n) (hs : Bien n s) :
    Bien n (add_to_history n ok cmd s) ∧
      entradas (add_to_history n ok cmd s) = registro_paso n ok cmd (entradas s) := by
  obtain ⟨h, cnt⟩ := s
  obtain ⟨h1, h2, h3⟩ := hs
  lift cnt to ℕ using h2 with c
  have hcn : c ≤ n := by omega
  cases cmd with
  | none => exact ⟨bien_intro n h c h1 (by omega) h3, rfl⟩
  | some line =>
    simp only [add_to_history, registro_paso, strlen_cero]
    by_cases hvacia : line = ""
    · simp only [hvacia, if_true]
      exact ⟨bien_intro n h c h1 (by omega) h3, trivial⟩
    · simp only [hvacia, if_false]
      have hdup : (0 < (c : Int) ∧ leer h ((c : Int) - 1) = some line) ↔
          (entradas ⟨h, (c : Int)⟩).getLast? = some (some line) := by
        simp only [entradas, Int.toNat_ofNat]
        by_cases hc0 : 0 < c
        · rw [leer_pred h c hc0, getLast?_take_getD h c hc0 (by omega)]
          simp [hc0]
        · have : c = 0 := by omega
          subst this
          simp
      by_cases hd : (entradas ⟨h, (c : Int)⟩).getLast? = some (some line)
      · rw [if_pos (hdup.mpr hd), if_pos hd]
        exact ⟨bien_intro n h c h1 (by omega) h3, rfl⟩
      · rw [if_neg (fun hh => hd (hdup.mp hh)), if_neg hd]
        have hlen : (entradas ⟨h, (c : Int)⟩).length = c := by
          simp [entradas, List.length_take]; omega
        rw [hlen]
        by_cases hfull : c = n
        · subst hfull
          have hcast : ((c : Int) - 1) = ((c - 1 : Nat) : Int) := by omega
          have hdl := desplazar_length c h hn h1
          have htk := take_desplazar c h hn h1
          have hent : entradas ⟨h, (c : Int)⟩ = h := by
            simp only [entradas, Int.toNat_ofNat]
            exact List.take_of_length_le (by omega)
          simp only [if_true, hcast, escribir_nat, leer_nat,
            getD_set_igual (desplazar c h) (c - 1) _ (by omega), hent]
          cases ok with
          | true =>
            simp only [strdup, if_true]
            rw [if_neg (by simp)]
            refine ⟨bien_intro _ _ _ (by simp [hdl]) (by omega) (by omega), ?_⟩
            simp only [entradas]
            have e1 : ((((c - 1 : Nat) : Int)) + 1).toNat = (c - 1) + 1 := by omega
            rw [e1, take_set_succ _ _ _ (by omega), htk]
          | false =>
            simp only [strdup]
            simp only [Bool.false_eq_true, if_false, if_true, List.append_nil]
            refine ⟨bien_intro _ _ _ (by simp [hdl]) (by omega) (by omega), ?_⟩
            simp only [entradas, Int.toNat_ofNat]
            rw [take_set_igual, htk]
        · have hne : ¬ ((c : Int) = (n : Int)) := by omega
          have hlt : c < h.length := by omega
          simp only [hne, hfull, if_false, escribir_nat, leer_nat,
            getD_set_igual h c _ hlt]
          cases ok with
          | true =>
            simp only [strdup, if_true]
            rw [if_neg (by simp)]
            refine ⟨bien_intro _ _ _ (by simp [h1]) (by omega) (by omega), ?_⟩
            simp only [entradas]
            have e1 : ((c : Int) + 1).toNat = c + 1 := by omega
            rw [e1, take_set_succ _ _ _ hlt, Int.toNat_ofNat]
          | false =>
            simp only [strdup]
            simp only [Bool.false_eq_true, if_false, if_true, List.append_nil]
            refine ⟨bien_intro _ _ _ (by simp [h1]) (by omega) (by omega), ?_⟩
            simp only [entradas, Int.toNat_ofNat]
            rw [take_set_igual]

/-! ### Sequences of calls -/

theorem add_secuencia_paso (n : Nat) (llamadas : List (Option String × Bool))
    (s : Historial) (hn : 1 ≤ n) (hs : Bien n s) :
    Bien n (add_secuencia n llamadas s) ∧
      entradas (add_secuencia n llamadas s) =
        registro_secuencia n llamadas (entradas s) := by
  induction llamadas generalizing s with
  | nil => exact ⟨hs, rfl⟩
  | cons p resto ih =>
    have h1 := add_to_history_paso n p.2 p.1 s hn hs
    have h2 := ih (add_to_history n p.2 p.1 s) h1.1
    refine ⟨h2.1, ?_⟩
    have h3 := h2.2
    rw [h1.2] at h3
    exact h3

theorem getLast?_tail (es : List (Option String)) (x : Option String)
    (h : es.tail.getLast? = some x) : es.getLast? = some x := by
  cases es with
  | nil => simp at h
  | cons a t =>
    cases t with
    | nil => simp at h
    | cons b u => simpa using h

theorem registro_paso_limpio (n : Nat) (ok : Bool) (cmd : Option String)
    (es : List (Option String)) (h : Limpio es) : Limpio (registro_paso n ok cmd es) := by
  cases cmd with
  | none => exact h
  | some c =>
    simp only [registro_paso]
    by_cases hv : c = ""
    · rw [if_pos hv]; exact h
    · rw [if_neg hv]
      by_cases hd : es.getLast? = some (some c)
      · rw [if_pos hd]; exact h
      · rw [if_neg hd]
        have hbase : Limpio (if es.length = n then es.tail else es) ∧
            ((if es.length = n then es.tail else es).getLast? ≠ some (some c)) := by
          by_cases hf : es.length = n
          · rw [if_pos hf]
            refine ⟨⟨fun e he => h.1 e (List.mem_of_mem_tail he), h.2.tail⟩, ?_⟩
            intro hh
            exact hd (getLast?_tail es _ hh)
          · rw [if_neg hf]
            exact ⟨h, hd⟩
        generalize (if es.length = n then es.tail else es) = b at hbase
        cases ok with
        | false => simpa using hbase.1
        | true =>
          simp only [if_true]
          refine ⟨?_, ?_⟩
          · intro e he
            rcases List.mem_append.mp he with h1 | h1
            · exact hbase.1.1 e h1
            · refine ⟨c, ?_, hv⟩
              simpa using h1
          · refine List.Chain'.append hbase.1.2 (List.chain'_singleton _) ?_
            intro x hx y hy
            simp only [List.head?_cons, Option.mem_def, Option.some.injEq] at hy
            subst hy
            intro hxy
            subst hxy
            exact hbase.2 hx

theorem registro_secuencia_limpio (n : Nat) (llamadas : List (Option String × Bool))
    (es : List (Option String)) (h : Limpio es) :
    Limpio (registro_secuencia n llamadas es) := by
  induction llamadas generalizing es with
  | nil => exact h
  | cons p resto ih => exact ih _ (registro_paso_limpio n p.2 p.1 es h)

theorem registro_secuencia_distintas (n : Nat) (hn : 1 ≤ n) (l : List String)
    (hch : List.Chain' (fun a b => a ≠ b) l) (hne : ∀ x ∈ l, x ≠ "") :
    registro_secuencia n (l.map (fun x => (some x, true))) [] =
      (l.drop (l.length - n)).map some := by
  induction l using List.reverseRecOn with
  | nil => simp [registro_secuencia]
  | append_singleton l x ih =>
    have hch1 := (List.chain'_append.mp hch)
    have ih1 := ih hch1.1 (fun y hy => hne y (List.mem_append_left _ hy))
    have hx : x ≠ "" := hne x (by simp)
    unfold registro_secuencia at ih1 ⊢
    rw [List.map_append, List.foldl_append, ih1]
    simp only [List.map_cons, List.map_nil, List.foldl_cons, List.foldl_nil, registro_paso,
      if_neg hx, if_true]
    have hlast : ¬ ((List.map some (List.drop (l.length - n) l)).getLast? = some (some x)) := by
      rw [List.getLast?_map, List.getLast?_drop]
      by_cases hl : l.length ≤ l.length - n
      · simp [hl]
      · rw [if_neg hl]
        intro hh
        cases hlx : l.getLast? with
        | none => rw [hlx] at hh; simp at hh
        | some y =>
          rw [hlx] at hh
          simp only [Option.map_some', Option.some.injEq] at hh
          exact hch1.2.2 y hlx x (by simp) hh
    rw [if_neg hlast]
    simp only [List.length_map, List.length_drop, List.length_append, List.length_singleton]
    by_cases hf : l.length - (l.length - n) = n
    · rw [if_pos hf]
      have hle : l.length - n + 1 ≤ l.length := by omega
      have e1 : l.length + 1 - n = l.length - n + 1 := by omega
      rw [e1, List.drop_append_of_le_length hle, List.map_append, ← List.map_tail,
        List.tail_drop]
      rfl
    · rw [if_neg hf]
      have e0 : l.length - n = 0 := by omega
      have e1 : l.length + 1 - n = 0 := by omega
      rw [e0, e1]
      simp

theorem getLast?_entradas (n : Nat) (s : Historial) (hs : Bien n s) (line : String) :
    (entradas s).getLast? = some (some line) ↔ ultima s = some line := by
  obtain ⟨h, cnt⟩ := s
  obtain ⟨h1, h2, h3⟩ := hs
  lift cnt to ℕ using h2 with c
  simp only [entradas, ultima, Int.toNat_ofNat]
  by_cases hc0 : 0 < c
  · have hc1 : 0 < (c : Int) := by omega
    rw [if_pos hc1, leer_pred h c hc0, getLast?_take_getD h c hc0 (by omega)]
    simp
  · have : c = 0 := by omega
    subst this
    simp

theorem history_count_eq (n : Nat) (s : Historial) (hs : Bien n s) :
    s.history_count = ((entradas s).length : Int) := by
  rw [entradas_length n s hs]
  have := hs.2.1
  omega

/-! ### Registry lookup and the REPL cycle -/

theorem buscar_comando_registrado :
    ∀ i, i < num_comandos → buscar_comando (nombres_comandos.getD i "") = some i := by
  decide

theorem buscar_comando_desconocido (a0 : String) (h : a0 ∉ nombres_comandos) :
    buscar_comando a0 = none := by
  unfold buscar_comando
  rw [List.find?_eq_none]
  intro i hi hh
  apply h
  have hi2 : i < nombres_comandos.length := by simpa [num_comandos] using hi
  have e : a0 = nombres_comandos.getD i "" := by simpa using hh
  rw [e, List.getD_eq_getElem _ _ hi2]
  exact List.getElem_mem _

theorem ejecutar_desconocido (a0 : String) (resto : List String) (m : Mundo)
    (h : a0 ∉ nombres_comandos) :
    ejecutar (a0 :: resto) m = printf (texto_desconocido a0) m := by
  simp only [ejecutar, buscar_comando_desconocido a0 h]

theorem ejecutar_hist (args : List String) (m : Mundo) : (ejecutar args m).hist = m.hist := by
  unfold ejecutar
  split
  · rfl
  · split
    · split <;> rfl
    · rfl

theorem guardar_linea_bien (n : Nat) (hn : 1 ≤ n) (ok : Bool) (linea : Option String)
    (m : Mundo) (hm : Bien n m.hist) : Bien n (guardar_linea n ok linea m).hist := by
  unfold guardar_linea
  split
  · exact hm
  · split
    · exact (add_to_history_paso n ok _ m.hist hn hm).1
    · exact hm

theorem loop_shell_bien (n : Nat) (hn : 1 ≤ n) (parsear_linea : Option String → List String)
    (lineas : List (Option String × Bool)) (m : Mundo) (hm : Bien n m.hist) :
    Bien n (loop_shell n parsear_linea lineas m).hist := by
  unfold loop_shell
  induction lineas generalizing m with
  | nil => exact hm
  | cons p resto ih =>
    rw [List.foldl_cons]
    apply ih
    by_cases ht : m.terminado = true
    · rw [if_pos ht]; exact hm
    · rw [if_neg ht]
      unfold ciclo
      rw [ejecutar_hist]
      exact guardar_linea_bien n hn _ _ _ hm

theorem ultima_tras_guardar (n : Nat) (hn : 1 ≤ n) (s : Historial) (hs : Bien n s)
    (line : String) (hline : line ≠ "") :
    ultima (add_to_history n true (some line) s) = some line := by
  have hp := add_to_history_paso n true (some line) s hn hs
  rw [← getLast?_entradas n _ hp.1, hp.2]
  simp only [registro_paso, if_neg hline]
  by_cases hd : (entradas s).getLast? = some (some line)
  · rw [if_pos hd]; exact hd
  · rw [if_neg hd]; simp

theorem ejecutar_registrado (i : Nat) (nombre : String) (f : Comando)
    (args : List String) (m : Mundo)
    (hnombre : nombres_comandos[i]? = some nombre) (hf : func_comandos[i]? = some f)
    (hargs : args.head? = some nombre) : ejecutar args m = invocar f args m := by
  have hi : i < nombres_comandos.length := by
    by_contra hc
    rw [List.getElem?_eq_none (by omega)] at hnombre
    exact absurd hnombre (by simp)
  have hget : nombres_comandos.getD i "" = nombre := by
    rw [List.getD_eq_getElem?_getD, hnombre]
    rfl
  have hb := buscar_comando_registrado i hi
  rw [hget] at hb
  cases args with
  | nil => simp at hargs
  | cons a0 resto =>
    have ha : a0 = nombre := by simpa using hargs
    subst ha
    simp only [ejecutar, hb, hf]

theorem guardar_linea_no_vacia (n : Nat) (line : String) (hline : line ≠ "") (ok : Bool)
    (m : Mundo) :
    guardar_linea n ok (some line) m
      = ⟨add_to_history n ok (some line) m.hist, m.traza, m.terminado⟩ := by
  have hpos : 0 < line.length := by
    have := (strlen_cero line).not.mpr hline
    omega
  simp only [guardar_linea, if_pos hpos]

theorem cmd_historial_ultima (s : Historial) (line : String)
    (hult : ultima s = some line) :
    ∃ antes : List String, cmd_historial s
      = antes ++ ["  " ++ fmt_2d s.history_count ++ ": " ++ line ++ "\n", "\n"] := by
  have hpos : 0 < s.history_count := by
    by_contra hc
    simp [ultima, hc] at hult
  have hl : leer s.history (s.history_count - 1) = some line := by
    simpa [ultima, hpos] using hult
  obtain ⟨h, cnt⟩ := s
  simp only at hpos hl ⊢
  obtain ⟨c, rfl⟩ : ∃ c : Nat, cnt = (c : Int) + 1 := ⟨(cnt - 1).toNat, by omega⟩
  have e1 : ((c : Int) + 1 - 1) = (c : Int) := by omega
  rw [e1] at hl
  have e2 : ((c : Int) + 1).toNat = c + 1 := by omega
  have hne : ¬ ((c : Int) + 1 = 0) := by omega
  simp only [cmd_historial, if_neg hne, e2, List.range_succ, List.map_append, List.map_cons,
    List.map_nil, hl, Option.getD_some]
  refine ⟨["\n=== HISTORIAL DE COMANDOS (últimos " ++ fmt_d ((c : Int) + 1) ++ ") ===\n"]
    ++ List.map (fun (i : Nat) => "  " ++ fmt_2d ((i : Int) + 1) ++ ": "
        ++ (leer h (i : Int)).getD "(null)" ++ "\n") (List.range c), ?_⟩
  simp only [List.append_assoc, List.singleton_append, List.cons_append, List.nil_append]

/-! ## The history manager: claims -/

/-- C1: for every capacity `MAX_HISTORY ≥ 1` and every finite sequence of
`add_to_history` calls from the empty log (any arguments, `NULL`, empty and
repeated lines included, each `strdup` succeeding or failing), after every call
(every prefix of the sequence) `history_count` lies between 0 and `MAX_HISTORY`
and the log has at most `MAX_HISTORY` entries. -/
theorem C1_history_count_acotado (MAX_HISTORY : Nat) (hmax : 1 ≤ MAX_HISTORY)
    (llamadas : List (Option String × Bool)) (k : Nat) :
    0 ≤ (add_secuencia MAX_HISTORY (llamadas.take k)
          (historial_inicial MAX_HISTORY)).history_count ∧
    (add_secuencia MAX_HISTORY (llamadas.take k)
          (historial_inicial MAX_HISTORY)).history_count ≤ (MAX_HISTORY : Int) ∧
    (entradas (add_secuencia MAX_HISTORY (llamadas.take k)
          (historial_inicial MAX_HISTORY))).length ≤ MAX_HISTORY := by
  have hb := (add_secuencia_paso MAX_HISTORY (llamadas.take k)
    (historial_inicial MAX_HISTORY) hmax (historial_inicial_bien MAX_HISTORY)).1
  refine ⟨hb.2.1, hb.2.2, ?_⟩
  have hl := entradas_length MAX_HISTORY _ hb
  have h2 := hb.2.2
  omega

theorem C1_history_count_acotado_witness :
    0 ≤ (add_secuencia 1 ([(some "a", true), (some "b", false), (some "", true),
            (none, true), (some "c", true), (some "c", true)].take 5)
          (historial_inicial 1)).history_count ∧
    (add_secuencia 1 ([(some "a", true), (some "b", false), (some "", true),
            (none, true), (some "c", true), (some "c", true)].take 5)
          (historial_inicial 1)).history_count ≤ ((1 : Nat) : Int) ∧
    (entradas (add_secuencia 1 ([(some "a", true), (some "b", false), (some "", true),
            (none, true), (some "c", true), (some "c", true)].take 5)
          (historial_inicial 1))).length ≤ 1 :=
  C1_history_count_acotado 1 (by decide) _ 5

/-- C2, evaluated on the code: with `MAX_HISTORY = 2` the calls "a", "b" fill the
log; a further call with "c" whose `strdup` fails does not leave the log as it
was: the oldest entry "a" has already been evicted and `history_count` has
dropped from 2 to 1. -/
theorem C2_fallo_de_strdup_con_historial_lleno :
    add_secuencia 2 [(some "a", true), (some "b", true)] (historial_inicial 2)
      = ⟨[some "a", some "b"], 2⟩ ∧
    add_to_history 2 false (some "c") ⟨[some "a", some "b"], 2⟩
      = ⟨[some "b", none], 1⟩ ∧
    entradas (add_to_history 2 false (some "c") ⟨[some "a", some "b"], 2⟩)
      ≠ entradas ⟨[some "a", some "b"], 2⟩ := by
  decide

/-- C3: for every state and every line that is the empty string or equals the
most recently stored entry `history[history_count - 1]`, `add_to_history` is a
no-op: the whole state (count and all slots) is unchanged, whether or not an
allocation would succeed. -/
theorem C3_vacia_o_repetida_no_cambia (MAX_HISTORY : Nat) (ok : Bool) (line : String)
    (s : Historial) (h : line = "" ∨ ultima s = some line) :
    add_to_history MAX_HISTORY ok (some line) s = s ∧
      entradas (add_to_history MAX_HISTORY ok (some line) s) = entradas s := by
  have key : add_to_history MAX_HISTORY ok (some line) s = s := by
    simp only [add_to_history, strlen_cero]
    by_cases hv : line = ""
    · rw [if_pos hv]
    · rw [if_neg hv]
      rcases h with h | h
      · exact absurd h hv
      · have hpos : 0 < s.history_count := by
          by_contra hc
          simp [ultima, hc] at h
        have hl : leer s.history (s.history_count - 1) = some line := by
          simpa [ultima, hpos] using h
        rw [if_pos ⟨hpos, hl⟩]
  exact ⟨key, by rw [key]⟩

theorem C3_vacia_o_repetida_no_cambia_witness :
    ("ls" = "" ∨ ultima ⟨[some "pwd", some "ls", none], 2⟩ = some "ls") ∧
    (add_to_history 3 true (some "ls") ⟨[some "pwd", some "ls", none], 2⟩
        = ⟨[some "pwd", some "ls", none], 2⟩ ∧
      entradas (add_to_history 3 true (some "ls") ⟨[some "pwd", some "ls", none], 2⟩)
        = entradas ⟨[some "pwd", some "ls", none], 2⟩) :=
  ⟨Or.inr (by decide),
    C3_vacia_o_repetida_no_cambia 3 true "ls" ⟨[some "pwd", some "ls", none], 2⟩
      (Or.inr (by decide))⟩

/-- C4: for `MAX_HISTORY ≥ 1`, a well-formed state with `n = history_count`
stored entries, and a non-empty line that differs from the last stored entry
(or the log is empty), a call whose `strdup` succeeds gives: below capacity the
same entries followed by the line and count `n + 1`; at capacity the entries
without the oldest one (index 0), in the same order, followed by the line, and
count `MAX_HISTORY`. Only the last entry is compared, so a line equal to an
earlier entry that is separated from the end by a different entry is appended. -/
theorem C4_agrega_o_desaloja (MAX_HISTORY : Nat) (hmax : 1 ≤ MAX_HISTORY) (s : Historial)
    (hs : Bien MAX_HISTORY s) (line : String) (hline : line ≠ "")
    (hult : ultima s ≠ some line) :
    (s.history_count < (MAX_HISTORY : Int) →
      (add_to_history MAX_HISTORY true (some line) s).history_count = s.history_count + 1 ∧
      entradas (add_to_history MAX_HISTORY true (some line) s)
        = entradas s ++ [some line]) ∧
    (s.history_count = (MAX_HISTORY : Int) →
      (add_to_history MAX_HISTORY true (some line) s).history_count = (MAX_HISTORY : Int) ∧
      entradas (add_to_history MAX_HISTORY true (some line) s)
        = (entradas s).tail ++ [some line]) := by
  have hp := add_to_history_paso MAX_HISTORY true (some line) s hmax hs
  have hd : ¬ ((entradas s).getLast? = some (some line)) :=
    fun hh => hult ((getLast?_entradas MAX_HISTORY s hs line).mp hh)
  have hcnt := history_count_eq MAX_HISTORY _ hp.1
  have hcnt0 := history_count_eq MAX_HISTORY s hs
  have he := hp.2
  simp only [registro_paso, if_neg hline, if_neg hd, if_true] at he
  constructor
  · intro hlt
    have hne : ¬ ((entradas s).length = MAX_HISTORY) := by omega
    rw [if_neg hne] at he
    refine ⟨?_, he⟩
    rw [hcnt, he, List.length_append, List.length_singleton]
    omega
  · intro heq
    have hfull : (entradas s).length = MAX_HISTORY := by omega
    rw [if_pos hfull] at he
    refine ⟨?_, he⟩
    rw [hcnt, he, List.length_append, List.length_singleton, List.length_tail]
    omega

theorem C4_agrega_o_desaloja_witness :
    (1 ≤ 3 ∧ Bien 3 ⟨[some "a", some "b", some "c"], 3⟩ ∧ "a" ≠ "" ∧
      ultima ⟨[some "a", some "b", some "c"], 3⟩ ≠ some "a") ∧
    ((((⟨[some "a", some "b", some "c"], 3⟩ : Historial).history_count < ((3 : Nat) : Int) →
      (add_to_history 3 true (some "a") ⟨[some "a", some "b", some "c"], 3⟩).history_count
        = (⟨[some "a", some "b", some "c"], 3⟩ : Historial).history_count + 1 ∧
      entradas (add_to_history 3 true (some "a") ⟨[some "a", some "b", some "c"], 3⟩)
        = entradas ⟨[some "a", some "b", some "c"], 3⟩ ++ [some "a"])) ∧
    ((⟨[some "a", some "b", some "c"], 3⟩ : Historial).history_count = ((3 : Nat) : Int) →
      (add_to_history 3 true (some "a") ⟨[some "a", some "b", some "c"], 3⟩).history_count
        = ((3 : Nat) : Int) ∧
      entradas (add_to_history 3 true (some "a") ⟨[some "a", some "b", some "c"], 3⟩)
        = (entradas ⟨[some "a", some "b", some "c"], 3⟩).tail ++ [some "a"])) :=
  ⟨⟨by decide, ⟨by decide, by decide, by decide⟩, by decide, by decide⟩,
    C4_agrega_o_desaloja 3 (by decide) ⟨[some "a", some "b", some "c"], 3⟩
      ⟨by decide, by decide, by decide⟩ "a" (by decide) (by decide)⟩

/-- C5: for `MAX_HISTORY ≥ 1` and `MAX_HISTORY + 1` pairwise distinct non-empty
lines `l_0 .. l_MAX`, appending them in order to the empty log (every `strdup`
succeeding) leaves `history_count = MAX_HISTORY`, the stored entries are
`l_1 .. l_MAX`, the first entry is `l_1`, and entry `i` is `l_(i+1)` for every
`i < MAX_HISTORY`. -/
theorem C5_desaloja_la_mas_antigua (MAX_HISTORY : Nat) (hmax : 1 ≤ MAX_HISTORY)
    (l : List String) (hlen : l.length = MAX_HISTORY + 1) (hnd : l.Nodup)
    (hne : ∀ x ∈ l, x ≠ "") :
    (add_secuencia MAX_HISTORY (l.map (fun x => (some x, true)))
        (historial_inicial MAX_HISTORY)).history_count = (MAX_HISTORY : Int) ∧
    entradas (add_secuencia MAX_HISTORY (l.map (fun x => (some x, true)))
        (historial_inicial MAX_HISTORY)) = l.tail.map some ∧
    leer (add_secuencia MAX_HISTORY (l.map (fun x => (some x, true)))
        (historial_inicial MAX_HISTORY)).history 0 = l[1]? ∧
    ∀ i : Nat, i < MAX_HISTORY →
      leer (add_secuencia MAX_HISTORY (l.map (fun x => (some x, true)))
        (historial_inicial MAX_HISTORY)).history (i : Int) = l[i + 1]? := by
  have hp := add_secuencia_paso MAX_HISTORY (l.map (fun x => (some x, true)))
    (historial_inicial MAX_HISTORY) hmax (historial_inicial_bien MAX_HISTORY)
  have he := hp.2
  rw [entradas_inicial, registro_secuencia_distintas MAX_HISTORY hmax l
    (List.Pairwise.chain' hnd) hne] at he
  have e1 : l.length - MAX_HISTORY = 1 := by omega
  rw [e1, List.drop_one] at he
  have hcnt := history_count_eq MAX_HISTORY _ hp.1
  generalize add_secuencia MAX_HISTORY (l.map (fun x => (some x, true)))
    (historial_inicial MAX_HISTORY) = t at hp he hcnt
  have hc : t.history_count = (MAX_HISTORY : Int) := by
    rw [hcnt, he, List.length_map, List.length_tail]
    omega
  have hidx : ∀ i : Nat, i < MAX_HISTORY → leer t.history (i : Int) = l[i + 1]? := by
    intro i hi
    have h1 : (entradas t)[i]? = t.history[i]? := by
      unfold entradas
      rw [hc, Int.toNat_ofNat, List.getElem?_take_of_lt hi]
    have hlt : i + 1 < l.length := by omega
    have h2 : (l.tail.map some)[i]? = some (some (l[i + 1])) := by
      rw [List.getElem?_map, ← List.drop_one, List.getElem?_drop,
        Nat.add_comm 1 i, List.getElem?_eq_getElem hlt]
      rfl
    rw [he, h2] at h1
    rw [leer_nat, List.getD_eq_getElem?_getD, ← h1, List.getElem?_eq_getElem hlt]
    rfl
  exact ⟨hc, he, hidx 0 (by omega), hidx⟩

theorem C5_desaloja_la_mas_antigua_witness :
    (1 ≤ 2 ∧ ["a", "b", "c"].length = 2 + 1 ∧ ["a", "b", "c"].Nodup ∧
      ∀ x ∈ ["a", "b", "c"], x ≠ "") ∧
    entradas (add_secuencia 2 (["a", "b", "c"].map (fun x => (some x, true)))
        (historial_inicial 2)) = [some "b", some "c"] :=
  ⟨⟨by decide, by decide, by decide, by decide⟩,
    (C5_desaloja_la_mas_antigua 2 (by decide) ["a", "b", "c"] (by decide) (by decide)
      (by decide)).2.1⟩

/-- C9: in every state reached from the empty log by a sequence of
`add_to_history` calls (`MAX_HISTORY ≥ 1`, any arguments, each `strdup`
succeeding or failing), every stored entry `history[0 .. history_count - 1]` is
a non-empty string, and no stored entry equals the entry right before it. -/
theorem C9_sin_vacias_ni_repetidas_adyacentes (MAX_HISTORY : Nat) (hmax : 1 ≤ MAX_HISTORY)
    (llamadas : List (Option String × Bool)) :
    (∀ e ∈ entradas (add_secuencia MAX_HISTORY llamadas (historial_inicial MAX_HISTORY)),
      ∃ x : String, e = some x ∧ x ≠ "") ∧
    List.Chain' (fun a b => a ≠ b)
      (entradas (add_secuencia MAX_HISTORY llamadas (historial_inicial MAX_HISTORY))) := by
  have hp := add_secuencia_paso MAX_HISTORY llamadas
    (historial_inicial MAX_HISTORY) hmax (historial_inicial_bien MAX_HISTORY)
  rw [hp.2, entradas_inicial]
  exact registro_secuencia_limpio MAX_HISTORY llamadas []
    ⟨fun e he => absurd he (List.not_mem_nil e), List.chain'_nil⟩

theorem C9_sin_vacias_ni_repetidas_adyacentes_witness :
    1 ≤ 2 ∧
    ((∀ e ∈ entradas (add_secuencia 2
        [(some "a", true), (some "a", true), (some "", true), (some "b", true),
         (some "c", false), (some "b", true), (some "a", true)] (historial_inicial 2)),
      ∃ x : String, e = some x ∧ x ≠ "") ∧
    List.Chain' (fun a b => a ≠ b)
      (entradas (add_secuencia 2
        [(some "a", true), (some "a", true), (some "", true), (some "b", true),
         (some "c", false), (some "b", true), (some "a", true)] (historial_inicial 2)))) :=
  ⟨by decide, C9_sin_vacias_ni_repetidas_adyacentes 2 (by decide) _⟩

/-! ## The dispatcher and the REPL cycle: claims -/

/-- C6: for every index `i` of the registry, with `nombres_comandos[i]` the name
and `func_comandos[i]` the handler at that index, and every argument list whose
`args[0]` equals that name, `ejecutar` does exactly one thing: it calls that
handler with the whole argument list. The events it adds are the single call
`llamada func_comandos[i] args` (with the history globals as they were at the
call): no other handler, no console output. -/
theorem C6_ejecutar_invoca_el_manejador (i : Nat) (nombre : String) (f : Comando)
    (args : List String) (m : Mundo)
    (hnombre : nombres_comandos[i]? = some nombre) (hf : func_comandos[i]? = some f)
    (hargs : args.head? = some nombre) :
    ejecutar args m = invocar f args m ∧
      (ejecutar args m).traza = m.traza ++ [Evento.llamada f args m.hist] := by
  have hi : i < nombres_comandos.length := by
    by_contra hc
    rw [List.getElem?_eq_none (by omega)] at hnombre
    exact absurd hnombre (by simp)
  have hget : nombres_comandos.getD i "" = nombre := by
    rw [List.getD_eq_getElem?_getD, hnombre]
    rfl
  have hb := buscar_comando_registrado i hi
  rw [hget] at hb
  cases args with
  | nil => simp at hargs
  | cons a0 resto =>
    have ha : a0 = nombre := by simpa using hargs
    subst ha
    have key : ejecutar (a0 :: resto) m = invocar f (a0 :: resto) m := by
      simp only [ejecutar, hb, hf]
    exact ⟨key, by rw [key]; rfl⟩

theorem C6_ejecutar_invoca_el_manejador_witness :
    (nombres_comandos[8]? = some "buscar" ∧ func_comandos[8]? = some Comando.cmd_buscar ∧
      ["buscar", "main", "main.c"].head? = some "buscar") ∧
    (ejecutar ["buscar", "main", "main.c"] (mundo_inicial 4)
        = invocar Comando.cmd_buscar ["buscar", "main", "main.c"] (mundo_inicial 4) ∧
      (ejecutar ["buscar", "main", "main.c"] (mundo_inicial 4)).traza
        = (mundo_inicial 4).traza
            ++ [Evento.llamada Comando.cmd_buscar ["buscar", "main", "main.c"]
                  (mundo_inicial 4).hist]) :=
  ⟨⟨by decide, by decide, by decide⟩,
    C6_ejecutar_invoca_el_manejador 8 "buscar" Comando.cmd_buscar
      ["buscar", "main", "main.c"] (mundo_inicial 4) (by decide) (by decide) (by decide)⟩

/-- C7: for every non-empty argument list whose `args[0]` is none of the
registered names, `ejecutar` changes the state in one way only: it writes one
text to the console, the unknown-command diagnostic "Comando desconocido: "
followed by the token `args[0]` and the hint to run `ayuda`. So exactly one
event is added and it is that output (no handler is called), the diagnostic
contains the token, the process has not ended (the call returns and the loop
can go on), and `history` and `history_count` are exactly as before the call. -/
theorem C7_comando_desconocido (a0 : String) (resto : List String) (m : Mundo)
    (h : a0 ∉ nombres_comandos) :
    ejecutar (a0 :: resto) m
      = ⟨m.hist, m.traza ++ [Evento.salida
          ("Comando desconocido: " ++ a0
            ++ "\nEscribe \x27ayuda\x27 para ver los comandos.\n")], m.terminado⟩ ∧
    (∀ (f : Comando) (args : List String) (hist : Historial),
      Evento.llamada f args hist ∈ (ejecutar (a0 :: resto) m).traza →
        Evento.llamada f args hist ∈ m.traza) ∧
    (ejecutar (a0 :: resto) m).traza.length = m.traza.length + 1 ∧
    (ejecutar (a0 :: resto) m).terminado = m.terminado ∧
    (ejecutar (a0 :: resto) m).hist = m.hist := by
  rw [ejecutar_desconocido a0 resto m h]
  refine ⟨rfl, ?_, ?_, rfl, rfl⟩
  · intro f args hist hmem
    simp only [printf, List.mem_append, List.mem_singleton] at hmem
    rcases hmem with hmem | hmem
    · exact hmem
    · exact absurd hmem (by simp)
  · simp [printf]

theorem C7_comando_desconocido_witness :
    "foo" ∉ nombres_comandos ∧
    ejecutar ("foo" :: ["x"]) (mundo_inicial 5)
      = ⟨(mundo_inicial 5).hist, (mundo_inicial 5).traza ++ [Evento.salida
          ("Comando desconocido: " ++ "foo"
            ++ "\nEscribe \x27ayuda\x27 para ver los comandos.\n")],
          (mundo_inicial 5).terminado⟩ :=
  ⟨by decide, (C7_comando_desconocido "foo" ["x"] (mundo_inicial 5) (by decide)).1⟩

/-- C8 as stated fails: for the unknown token "foo" the text written by
`ejecutar` is not "Unknown command: foo" followed by anything. -/
theorem C8_prefijo_en_ingles_falla :
    "foo" ∉ nombres_comandos ∧
    ¬ ∃ resto : String,
      (ejecutar ["foo"] (mundo_inicial 5)).traza
        = [Evento.salida ("Unknown command: " ++ "foo" ++ resto)] := by
  refine ⟨by decide, ?_⟩
  rintro ⟨resto, h⟩
  rw [ejecutar_desconocido "foo" [] _ (by decide)] at h
  simp only [printf, mundo_inicial, List.nil_append, List.cons.injEq, Evento.salida.injEq,
    and_true, texto_desconocido] at h
  have h2 := congrArg String.data h
  simp [String.data_append] at h2

/-- C8 amended: for every token not in the registry, the text `ejecutar` writes
is the literal "Comando desconocido: ", then the token, then a newline, then the
hint "Escribe 'ayuda' para ver los comandos." and a newline; it is written as
one console output. -/
theorem C8_formato_del_diagnostico (a0 : String) (resto : List String) (m : Mundo)
    (h : a0 ∉ nombres_comandos) :
    (ejecutar (a0 :: resto) m).traza = m.traza ++ [Evento.salida
      ("Comando desconocido: " ++ a0 ++ "\nEscribe \x27ayuda\x27 para ver los comandos.\n")] := by
  rw [ejecutar_desconocido a0 resto m h]
  rfl

theorem C8_formato_del_diagnostico_witness :
    "foo" ∉ nombres_comandos ∧
    (ejecutar ("foo" :: []) (mundo_inicial 5)).traza = (mundo_inicial 5).traza ++ [Evento.salida
      ("Comando desconocido: " ++ "foo" ++ "\nEscribe \x27ayuda\x27 para ver los comandos.\n")] :=
  ⟨by decide, C8_formato_del_diagnostico "foo" [] (mundo_inicial 5) (by decide)⟩

/-- C10: in a cycle of `loop_shell` the line is stored before it is tokenized
and dispatched. For `MAX_HISTORY ≥ 1`, any tokenizer, any earlier input and any
non-empty line whose `strdup` succeeds:
* whatever the tokens resolve to, after the cycle the history is the one left
  by `add_to_history` on the line and its last entry is the line;
* when the first token is a registered name, the cycle prints the prompt and
  then calls the handler, and the history handed to that call already is the
  one with the line as last entry; what `cmd_historial` prints on that history
  ends with the item numbered `history_count` showing the line;
* when the first token is unknown, the cycle prints the prompt and then the
  unknown-command text, and the line is in the history all the same.
Scenario: with `MAX_HISTORY = 5` and a tokenizer that maps "ayuda" and "foo" to
themselves, the inputs ayuda, foo, ayuda leave the log [ayuda, foo, ayuda]; the
help handler is called for each "ayuda", each time with the log that already
ends in that "ayuda", and "foo" gets the unknown-command text. -/
theorem C10_historial_antes_de_ejecutar (MAX_HISTORY : Nat) (hmax : 1 ≤ MAX_HISTORY)
    (parsear_linea : Option String → List String) :
    (∀ (previas : List (Option String × Bool)) (line : String), line ≠ "" →
      (ciclo MAX_HISTORY parsear_linea (some line) true
          (loop_shell MAX_HISTORY parsear_linea previas (mundo_inicial MAX_HISTORY))).hist
        = add_to_history MAX_HISTORY true (some line)
            (loop_shell MAX_HISTORY parsear_linea previas (mundo_inicial MAX_HISTORY)).hist ∧
      ultima (ciclo MAX_HISTORY parsear_linea (some line) true
          (loop_shell MAX_HISTORY parsear_linea previas (mundo_inicial MAX_HISTORY))).hist
        = some line ∧
      (∀ (i : Nat) (nombre : String) (f : Comando),
        nombres_comandos[i]? = some nombre → func_comandos[i]? = some f →
        (parsear_linea (some line)).head? = some nombre →
        (ciclo MAX_HISTORY parsear_linea (some line) true
            (loop_shell MAX_HISTORY parsear_linea previas (mundo_inicial MAX_HISTORY))).traza
          = (loop_shell MAX_HISTORY parsear_linea previas (mundo_inicial MAX_HISTORY)).traza
            ++ [Evento.salida "EAFITos> ",
                Evento.llamada f (parsear_linea (some line))
                  (add_to_history MAX_HISTORY true (some line)
                    (loop_shell MAX_HISTORY parsear_linea previas
                      (mundo_inicial MAX_HISTORY)).hist)] ∧
        ultima (add_to_history MAX_HISTORY true (some line)
            (loop_shell MAX_HISTORY parsear_linea previas (mundo_inicial MAX_HISTORY)).hist)
          = some line ∧
        ∃ antes : List String,
          cmd_historial (add_to_history MAX_HISTORY true (some line)
            (loop_shell MAX_HISTORY parsear_linea previas (mundo_inicial MAX_HISTORY)).hist)
          = antes ++ ["  " ++ fmt_2d (add_to_history MAX_HISTORY true (some line)
                (loop_shell MAX_HISTORY parsear_linea previas
                  (mundo_inicial MAX_HISTORY)).hist).history_count
              ++ ": " ++ line ++ "\n", "\n"]) ∧
      (∀ (a0 : String) (resto : List String),
        parsear_linea (some line) = a0 :: resto → a0 ∉ nombres_comandos →
        (ciclo MAX_HISTORY parsear_linea (some line) true
            (loop_shell MAX_HISTORY parsear_linea previas (mundo_inicial MAX_HISTORY))).traza
          = (loop_shell MAX_HISTORY parsear_linea previas (mundo_inicial MAX_HISTORY)).traza
            ++ [Evento.salida "EAFITos> ",
                Evento.salida ("Comando desconocido: " ++ a0
                  ++ "\nEscribe \x27ayuda\x27 para ver los comandos.\n")])) ∧
    (parsear_linea (some "ayuda") = ["ayuda"] → parsear_linea (some "foo") = ["foo"] →
      entradas (loop_shell 5 parsear_linea
          [(some "ayuda", true), (some "foo", true), (some "ayuda", true)]
          (mundo_inicial 5)).hist
        = [some "ayuda", some "foo", some "ayuda"] ∧
      (loop_shell 5 parsear_linea
          [(some "ayuda", true), (some "foo", true), (some "ayuda", true)]
          (mundo_inicial 5)).traza
        = [Evento.salida "EAFITos> ",
           Evento.llamada Comando.cmd_ayuda ["ayuda"]
             ⟨[some "ayuda", none, none, none, none], 1⟩,
           Evento.salida "EAFITos> ",
           Evento.salida ("Comando desconocido: " ++ "foo"
             ++ "\nEscribe \x27ayuda\x27 para ver los comandos.\n"),
           Evento.salida "EAFITos> ",
           Evento.llamada Comando.cmd_ayuda ["ayuda"]
             ⟨[some "ayuda", some "foo", some "ayuda", none, none], 3⟩]) := by
  constructor
  · intro previas line hline
    have hb := loop_shell_bien MAX_HISTORY hmax parsear_linea previas
      (mundo_inicial MAX_HISTORY) (historial_inicial_bien MAX_HISTORY)
    generalize loop_shell MAX_HISTORY parsear_linea previas (mundo_inicial MAX_HISTORY) = w
      at hb
    have hu := ultima_tras_guardar MAX_HISTORY hmax w.hist hb line hline
    have hg := guardar_linea_no_vacia MAX_HISTORY line hline true (printf "EAFITos> " w)
    have hh : (ciclo MAX_HISTORY parsear_linea (some line) true w).hist
        = add_to_history MAX_HISTORY true (some line) w.hist := by
      unfold ciclo
      rw [ejecutar_hist, hg]
      rfl
    refine ⟨hh, by rw [hh]; exact hu, ?_, ?_⟩
    · intro i nombre f hnombre hf hargs
      refine ⟨?_, hu, cmd_historial_ultima _ line hu⟩
      unfold ciclo
      rw [ejecutar_registrado i nombre f _ _ hnombre hf hargs, hg]
      simp [invocar, printf]
    · intro a0 resto hp ha
      unfold ciclo
      rw [hp, ejecutar_desconocido a0 resto _ ha, hg]
      simp [printf, texto_desconocido]
  · intro hay hfoo
    simp only [loop_shell, List.foldl_cons, List.foldl_nil, ciclo, hay, hfoo]
    decide

theorem C10_historial_antes_de_ejecutar_witness :
    (1 ≤ 5 ∧ "historial" ≠ "" ∧ nombres_comandos[6]? = some "historial" ∧
      func_comandos[6]? = some Comando.cmd_historial ∧
      (parsear_linea_blancos (some "historial")).head? = some "historial" ∧
      parsear_linea_blancos (some "ayuda") = ["ayuda"] ∧
      parsear_linea_blancos (some "foo") = ["foo"]) ∧
    (ciclo 5 parsear_linea_blancos (some "historial") true
        (loop_shell 5 parsear_linea_blancos [(some "ayuda", true)] (mundo_inicial 5))).traza
      = (loop_shell 5 parsear_linea_blancos [(some "ayuda", true)] (mundo_inicial 5)).traza
        ++ [Evento.salida "EAFITos> ",
            Evento.llamada Comando.cmd_historial (parsear_linea_blancos (some "historial"))
              (add_to_history 5 true (some "historial")
                (loop_shell 5 parsear_linea_blancos [(some "ayuda", true)]
                  (mundo_inicial 5)).hist)] ∧
    cmd_historial (add_to_history 5 true (some "historial")
        (loop_shell 5 parsear_linea_blancos [(some "ayuda", true)] (mundo_inicial 5)).hist)
      = ["\n=== HISTORIAL DE COMANDOS (últimos 2) ===\n", "   1: ayuda\n",
         "   2: historial\n", "\n"] ∧
    entradas (loop_shell 5 parsear_linea_blancos
        [(some "ayuda", true), (some "foo", true), (some "ayuda", true)]
        (mundo_inicial 5)).hist
      = [some "ayuda", some "foo", some "ayuda"] :=
  ⟨⟨by decide, by decide, by decide, by decide, by decide, by decide, by decide⟩,
    (((C10_historial_antes_de_ejecutar 5 (by decide) parsear_linea_blancos).1
      [(some "ayuda", true)] "historial" (by decide)).2.2.1 6 "historial"
        Comando.cmd_historial (by decide) (by decide) (by decide)).1,
    by decide,
    ((C10_historial_antes_de_ejecutar 5 (by decide) parsear_linea_blancos).2
      (by decide) (by decide)).1⟩

end EAFITos
